import Mathlib

set_option linter.unusedVariables false

/-!
Shallow embedding of the `path_planner` repository core:
`SamplingBasedPlanner.cpp` (open list management, goal condition, bounded
best-K expansion, the anytime `plan` loop) and `executive.cpp`
(pause/notification logic, coverage updates, the re-planning loop's
exception handling).

Doubles are modelled as rationals; vertices and edges carry the fields the
planner reads (depth, cached total cost `f`, state time, coverage-done flag,
parent edge with infeasibility / coverage-mode flags and approximate cost).
The vertex queue is a C++ `std::vector` maintained as a binary heap through
`std::push_heap` / `std::pop_heap`; we model it at the multiset level: a
list, insertion at the front, and removal of a maximal element with respect
to the source comparator (`std::pop_heap` removes the heap root, which is a
maximal element of the range).
-/

namespace PathPlanner

/-- A vehicle state: position, heading, speed, time (`State`, external). -/
structure State where
  x : ℚ
  y : ℚ
  heading : ℚ
  speed : ℚ
  time : ℚ
  deriving DecidableEq

/-- The fields of `Edge` read by the planner core: the infeasibility flag,
the coverage-mode flag (which turning-radius policy produced the edge), and
the cached approximate cost. -/
structure Edge where
  infeasible : Bool
  coverage : Bool
  approxCost : ℚ
  deriving DecidableEq

/-- The fields of `Vertex` read by the planner core: search depth, cached
total cost `f = g + h`, the state time, the coverage-completion flag
(`done()`), and the parent edge (`none` for the root). -/
structure Vertex where
  depth : Nat
  f : ℚ
  time : ℚ
  done : Bool
  parentEdge : Option Edge
  deriving DecidableEq

/-- `Vertex::isRoot()`: the root has no parent edge. -/
def Vertex.isRoot (v : Vertex) : Bool :=
  v.parentEdge.isNone

/-- `vertex->parentEdge()->infeasible()` guarded by `!vertex->isRoot()`
(line 8 of `SamplingBasedPlanner.cpp`). -/
def parentInfeasible (v : Vertex) : Bool :=
  match v.parentEdge with
  | none => false
  | some e => e.infeasible

/-- The configuration fields read by `goalCondition`. -/
structure PlannerCfg where
  timeHorizon : ℚ
  timeMinimum : ℚ
  deriving DecidableEq

/-- `SamplingBasedPlanner::goalCondition`:
`state().time() >= m_StartStateTime + timeHorizon || (done() && state().time() >= m_StartStateTime + timeMinimum)`. -/
def goalCondition (cfg : PlannerCfg) (startStateTime : ℚ) (v : Vertex) : Bool :=
  decide (startStateTime + cfg.timeHorizon ≤ v.time) ||
    (v.done && decide (startStateTime + cfg.timeMinimum ≤ v.time))

/-- `m_BestVertex && m_BestVertex->f() < vertex->f()` (line 11). -/
def bestDominates : Option Vertex → Vertex → Bool
  | none, _ => false
  | some b, v => decide (b.f < v.f)

/-- `m_BestVertex && m_BestVertex->f() == vertex->f() && goalCondition(vertex)` (line 13). -/
def bestEqualGoal (cfg : PlannerCfg) (startStateTime : ℚ) : Option Vertex → Vertex → Bool
  | none, _ => false
  | some b, v => decide (b.f = v.f) && goalCondition cfg startStateTime v

/-- `SamplingBasedPlanner::pushVertexQueue` (lines 7-18); `push_back` plus
`std::push_heap` is insertion into the heap, modelled as a front insertion
at the multiset level.  `vertex->approxToGo()` only forces the cached `f`,
which is already a field here. -/
def pushVertexQueue (cfg : PlannerCfg) (startStateTime : ℚ) (best : Option Vertex)
    (q : List Vertex) (v : Vertex) : List Vertex :=
  if !v.isRoot && parentInfeasible v then q
  else if bestDominates best v then q
  else if bestEqualGoal cfg startStateTime best v then q
  else v :: q

/-- `SamplingBasedPlanner::popVertexQueue` (lines 20-26): throws
`std::out_of_range` on an empty queue (modelled as `none`); otherwise
`std::pop_heap` moves the heap root — a vertex of maximal depth under
`getVertexComparator` (`v1->getDepth() < v2->getDepth()`, a max-heap on
depth) — to the back, which `pop_back` removes and returns. -/
def popVertexQueue (q : List Vertex) : Option (Vertex × List Vertex) :=
  match q.argmax Vertex.depth with
  | none => none
  | some v => some (v, q.erase v)

/-- An operation on the open list: a push (with its argument) or a pop. -/
inductive QueueOp where
  | push (v : Vertex)
  | pop
  deriving DecidableEq

/-- One open-list operation applied to a queue.  A pop on an empty queue
throws in the source; the queue is left unchanged here (the exception ends
the sequence). -/
def applyQueueOp (cfg : PlannerCfg) (startStateTime : ℚ) (best : Option Vertex)
    (q : List Vertex) : QueueOp → List Vertex
  | .push v => pushVertexQueue cfg startStateTime best q v
  | .pop =>
    match popVertexQueue q with
    | none => q
    | some p => p.2

/-- A sequence of open-list operations run from a starting queue, with the
incumbent `best` fixed throughout. -/
def runQueueOps (cfg : PlannerCfg) (startStateTime : ℚ) (best : Option Vertex)
    (q : List Vertex) : List QueueOp → List Vertex
  | [] => q
  | op :: ops => runQueueOps cfg startStateTime best (applyQueueOp cfg startStateTime best q op) ops

/-! ### Basic lemmas about the open-list operations -/

theorem popVertexQueue_nil : popVertexQueue [] = none := rfl

theorem popVertexQueue_isSome {q : List Vertex} (h : q ≠ []) :
    ∃ v rest, popVertexQueue q = some (v, rest) := by
  unfold popVertexQueue
  cases ha : q.argmax Vertex.depth with
  | none => exact absurd (List.argmax_eq_none.1 ha) h
  | some m => exact ⟨m, q.erase m, rfl⟩

theorem popVertexQueue_max {q : List Vertex} {v : Vertex} {rest : List Vertex}
    (h : popVertexQueue q = some (v, rest)) :
    v ∈ q ∧ rest = q.erase v ∧ ∀ x ∈ q, x.depth ≤ v.depth := by
  unfold popVertexQueue at h
  cases ha : q.argmax Vertex.depth with
  | none => rw [ha] at h; exact absurd h (by simp)
  | some m =>
    rw [ha] at h
    simp only [Option.some.injEq, Prod.mk.injEq] at h
    obtain ⟨rfl, rfl⟩ := h
    exact ⟨List.argmax_mem ha, rfl, fun x hx => List.le_of_mem_argmax hx ha⟩

theorem popVertexQueue_mem {q : List Vertex} {v : Vertex} {rest : List Vertex}
    (h : popVertexQueue q = some (v, rest)) : v ∈ q ∧ ∀ x ∈ rest, x ∈ q := by
  obtain ⟨hv, hr, _⟩ := popVertexQueue_max h
  exact ⟨hv, fun x hx => (List.erase_sublist v q).mem (hr ▸ hx)⟩

/-- `SamplingBasedPlanner::getVertexComparator` (lines 28-33): compares two
vertices by depth alone. -/
def getVertexComparator (v1 v2 : Vertex) : Bool :=
  decide (v1.depth < v2.depth)

theorem mem_pushVertexQueue {cfg : PlannerCfg} {t : ℚ} {best : Option Vertex}
    {q : List Vertex} {v x : Vertex}
    (hx : x ∈ pushVertexQueue cfg t best q v) :
    x ∈ q ∨ (x = v ∧ (!v.isRoot && parentInfeasible v) = false ∧
      bestDominates best v = false ∧ bestEqualGoal cfg t best v = false) := by
  unfold pushVertexQueue at hx
  by_cases h1 : (!v.isRoot && parentInfeasible v) = true
  · rw [if_pos h1] at hx; exact Or.inl hx
  · rw [if_neg h1] at hx
    by_cases h2 : bestDominates best v = true
    · rw [if_pos h2] at hx; exact Or.inl hx
    · rw [if_neg h2] at hx
      by_cases h3 : bestEqualGoal cfg t best v = true
      · rw [if_pos h3] at hx; exact Or.inl hx
      · rw [if_neg h3] at hx
        rcases List.mem_cons.1 hx with rfl | hq
        · exact Or.inr ⟨rfl, Bool.not_eq_true _ ▸ h1, Bool.not_eq_true _ ▸ h2,
            Bool.not_eq_true _ ▸ h3⟩
        · exact Or.inl hq

/-- Any property that holds of every vertex the push filter lets through is
an invariant of all queues reachable by pushes and pops from a queue
satisfying it. -/
theorem runQueueOps_forall {cfg : PlannerCfg} {t : ℚ} {best : Option Vertex}
    {P : Vertex → Prop}
    (hpush : ∀ v, (!v.isRoot && parentInfeasible v) = false →
      bestDominates best v = false → bestEqualGoal cfg t best v = false → P v) :
    ∀ (ops : List QueueOp) (q : List Vertex), (∀ x ∈ q, P x) →
      ∀ x ∈ runQueueOps cfg t best q ops, P x := by
  intro ops
  induction ops with
  | nil => intro q hq x hx; exact hq x hx
  | cons op ops ih =>
    intro q hq x hx
    refine ih (applyQueueOp cfg t best q op) ?_ x hx
    intro y hy
    cases op with
    | push v =>
      rcases mem_pushVertexQueue hy with hmem | ⟨rfl, h1, h2, h3⟩
      · exact hq y hmem
      · exact hpush y h1 h2 h3
    | pop =>
      simp only [applyQueueOp] at hy
      cases hp : popVertexQueue q with
      | none => rw [hp] at hy; exact hq y hy
      | some p =>
        rw [hp] at hy
        exact hq y ((popVertexQueue_mem hp).2 y hy)

/-! ### The bounded best-K selection inside `expand` (lines 46-124) -/

/-- The data of one sample as the scan reads it: its straight-line distance
to the source state (`sample.distanceTo(sourceVertex->state())`) and the
approximate cost (`computeApproxCost`, the external Dubins evaluator) of
the edge `Vertex::connect` would create to it under each turning-radius
policy.  Samples appear in the order the distance heap yields them. -/
structure Sample where
  euclid : ℚ
  approxDirect : ℚ
  approxCoverage : ℚ
  deriving DecidableEq

/-- The state of one policy's bounded best-K selection: the approximate
costs of the retained candidates (`bestSamples` / `bestCoverageSamples`, a
max-heap under `getDubinsComparator`, viewed as a multiset), the finished
flag (`regularDone` / `coverageDone`), the approximate costs of candidates
evicted for exceeding the bound, and the number of `Vertex::connect` calls
made (candidate vertices created by this policy's scan). -/
structure ScanState where
  cands : List ℚ
  done : Bool
  evicted : List ℚ
  created : Nat
  deriving DecidableEq

/-- Maximum of the non-empty cost list `x :: xs`; the heap root
`bestSamples.front()` is a maximal element of the range. -/
def listMax1 (x : ℚ) (xs : List ℚ) : ℚ := xs.foldl max x

/-- Remove the first occurrence of a value; `pop_heap` followed by
`pop_back` removes one maximal element from the candidate multiset. -/
def removeFirst (a : ℚ) : List ℚ → List ℚ
  | [] => []
  | x :: xs => if x = a then xs else x :: removeFirst a xs

/-- The gate of lines 77-78 (and 92-93): `bestSamples.size() < k() ||
bestSamples.front()->parentEdge()->approxCost() > sample.distanceTo(...)`.
(The C++ reads `front()` only after the size test has failed, so the empty
case of the match is reached only when `k = 0`, which the planner never
configures.) -/
def scanCond (k : Nat) (cands : List ℚ) (euclid : ℚ) : Bool :=
  decide (cands.length < k) ||
    (match cands with
     | [] => false
     | c :: cs => decide (euclid < listMax1 c cs))

/-- One iteration of the scan for a single policy (lines 77-91 for direct,
92-105 for coverage): nothing happens once the policy is finished; if the
gate passes and the sample is farther than the collision-checking
increment, the candidate is constructed (`Vertex::connect` +
`computeApproxCost`) and pushed, and if the bound is now exceeded a
candidate of maximal approximate cost is evicted; if the gate fails the
policy is marked finished. -/
def scanStep (k : Nat) (incr : ℚ) (st : ScanState) (euclid approx : ℚ) : ScanState :=
  if st.done then st
  else if scanCond k st.cands euclid then
    if incr < euclid then
      if k < st.cands.length + 1 then
        { cands := removeFirst (listMax1 approx st.cands) (approx :: st.cands),
          done := st.done,
          evicted := listMax1 approx st.cands :: st.evicted,
          created := st.created + 1 }
      else
        { st with cands := approx :: st.cands, created := st.created + 1 }
    else st
  else { st with done := true }

/-- The scan loop of lines 74-106: each sample, taken in heap order, feeds
both policies; the loop exits early once both policies are finished. -/
def expandScan (k : Nat) (incr : ℚ) : List Sample → ScanState → ScanState → ScanState × ScanState
  | [], r, c => (r, c)
  | s :: rest, r, c =>
    if r.done && c.done then (r, c)
    else expandScan k incr rest (scanStep k incr r s.euclid s.approxDirect)
      (scanStep k incr c s.euclid s.approxCoverage)

/-- Initial direct-policy scan state (lines 71-72). -/
def initDirectScan : ScanState := ⟨[], false, [], 0⟩

/-- Initial coverage-policy scan state: line 73 marks the coverage scan
finished up front when the coverage turning radius is non-positive. -/
def initCoverageScan (coverageTurningRadius : ℚ) : ScanState :=
  ⟨[], decide (coverageTurningRadius ≤ 0), [], 0⟩

/-- The scan invariant: at most `k` candidates retained; once a candidate
has been evicted the retained set is full; every retained approximate cost
is at most every bound-evicted approximate cost. -/
def ScanInv (k : Nat) (st : ScanState) : Prop :=
  st.cands.length ≤ k ∧ (st.evicted ≠ [] → st.cands.length = k) ∧
    ∀ x ∈ st.cands, ∀ w ∈ st.evicted, x ≤ w

theorem le_listMax1 (x : ℚ) (xs : List ℚ) : ∀ y ∈ x :: xs, y ≤ listMax1 x xs := by
  induction xs generalizing x with
  | nil =>
    intro y hy
    rcases List.mem_singleton.1 hy with rfl
    exact le_refl _
  | cons z xs ih =>
    intro y hy
    rcases List.mem_cons.1 hy with rfl | hy1
    · exact le_trans (le_max_left y z) (ih (max y z) _ (List.mem_cons_self _ _))
    · rcases List.mem_cons.1 hy1 with rfl | hy2
      · exact le_trans (le_max_right x y) (ih (max x y) _ (List.mem_cons_self _ _))
      · exact ih (max x z) y (List.mem_cons.2 (Or.inr hy2))

theorem listMax1_mem (x : ℚ) (xs : List ℚ) : listMax1 x xs ∈ x :: xs := by
  induction xs generalizing x with
  | nil => simp [listMax1]
  | cons z xs ih =>
    have := ih (max x z)
    rcases List.mem_cons.1 this with hm | hm
    · rcases max_choice x z with hc | hc
      · exact List.mem_cons.2 (Or.inl (by rw [listMax1, List.foldl_cons, ← listMax1, hm, hc]))
      · refine List.mem_cons.2 (Or.inr (List.mem_cons.2 (Or.inl ?_)))
        rw [listMax1, List.foldl_cons, ← listMax1, hm, hc]
    · refine List.mem_cons.2 (Or.inr (List.mem_cons.2 (Or.inr ?_)))
      rw [listMax1, List.foldl_cons, ← listMax1]
      exact hm

theorem removeFirst_subset (a : ℚ) (l : List ℚ) : ∀ x ∈ removeFirst a l, x ∈ l := by
  induction l with
  | nil => intro x hx; simp [removeFirst] at hx
  | cons y ys ih =>
    intro x hx
    unfold removeFirst at hx
    by_cases hy : y = a
    · rw [if_pos hy] at hx
      exact List.mem_cons.2 (Or.inr hx)
    · rw [if_neg hy] at hx
      rcases List.mem_cons.1 hx with rfl | hx1
      · exact List.mem_cons_self _ _
      · exact List.mem_cons.2 (Or.inr (ih x hx1))

theorem length_removeFirst_of_mem {a : ℚ} {l : List ℚ} (h : a ∈ l) :
    (removeFirst a l).length + 1 = l.length := by
  induction l with
  | nil => simp at h
  | cons y ys ih =>
    unfold removeFirst
    by_cases hy : y = a
    · rw [if_pos hy]; simp
    · rw [if_neg hy]
      have ha : a ∈ ys := by
        rcases List.mem_cons.1 h with rfl | h1
        · exact absurd rfl hy
        · exact h1
      simp only [List.length_cons]
      rw [← ih ha]

theorem scanStep_inv {k : Nat} {incr euclid approx : ℚ} {st : ScanState}
    (h : ScanInv k st) : ScanInv k (scanStep k incr st euclid approx) := by
  obtain ⟨hlen, hfull, hle⟩ := h
  unfold scanStep
  split
  · exact ⟨hlen, hfull, hle⟩
  split
  case isFalse => exact ⟨hlen, hfull, hle⟩
  split
  case isFalse => exact ⟨hlen, hfull, hle⟩
  split
  · -- eviction branch: the candidate set was full
    rename_i hdone hcond hfar hk
    have hmem : listMax1 approx st.cands ∈ approx :: st.cands := listMax1_mem _ _
    have hlen' := length_removeFirst_of_mem hmem
    simp only [List.length_cons] at hlen'
    refine ⟨?_, fun _ => ?_, ?_⟩
    · show (removeFirst (listMax1 approx st.cands) (approx :: st.cands)).length ≤ k
      omega
    · show (removeFirst (listMax1 approx st.cands) (approx :: st.cands)).length = k
      omega
    intro x hx w hw
    have hx' : x ∈ approx :: st.cands := removeFirst_subset _ _ x hx
    rcases List.mem_cons.1 hw with rfl | hw1
    · exact le_listMax1 approx st.cands x hx'
    · by_cases hm : approx = listMax1 approx st.cands
      · rw [removeFirst, if_pos hm] at hx
        exact hle x hx w hw1
      · rw [removeFirst, if_neg hm] at hx
        rcases List.mem_cons.1 hx with rfl | hx1
        · have hmax : listMax1 x st.cands ∈ st.cands := by
            rcases List.mem_cons.1 hmem with hm1 | hm1
            · exact absurd hm1.symm hm
            · exact hm1
          exact le_trans (le_listMax1 x st.cands x (List.mem_cons_self _ _))
            (hle _ hmax w hw1)
        · exact hle x (removeFirst_subset _ _ x hx1) w hw1
  · -- push without eviction: the bound was not yet reached
    rename_i hdone hcond hfar hk
    refine ⟨?_, ?_, ?_⟩
    · show (approx :: st.cands).length ≤ k
      simp only [List.length_cons]
      omega
    · intro hne
      have := hfull hne
      show (approx :: st.cands).length = k
      simp only [List.length_cons]
      omega
    · intro x hx w hw
      have hne : st.evicted ≠ [] := List.ne_nil_of_mem hw
      have := hfull hne
      omega

theorem scanStep_done {k : Nat} {incr euclid approx : ℚ} {st : ScanState}
    (h : st.done = true) : scanStep k incr st euclid approx = st := by
  unfold scanStep
  rw [if_pos h]

theorem expandScan_inv {k : Nat} {incr : ℚ} (samples : List Sample)
    (r c : ScanState) (hr : ScanInv k r) (hc : ScanInv k c) :
    ScanInv k (expandScan k incr samples r c).1 ∧
      ScanInv k (expandScan k incr samples r c).2 := by
  induction samples generalizing r c with
  | nil => exact ⟨hr, hc⟩
  | cons s rest ih =>
    rw [expandScan]
    split
    · exact ⟨hr, hc⟩
    · exact ih _ _ (scanStep_inv hr) (scanStep_inv hc)

theorem expandScan_coverage_done (k : Nat) (incr : ℚ) (samples : List Sample)
    (r c : ScanState) (hc : c.done = true) :
    (expandScan k incr samples r c).2 = c := by
  induction samples generalizing r with
  | nil => rfl
  | cons s rest ih =>
    rw [expandScan]
    split
    · rfl
    · rw [scanStep_done hc]
      exact ih _

/-- The configuration fields `expand` reads. -/
structure ExpandCfg where
  k : Nat
  collisionCheckingIncrement : ℚ
  coverageTurningRadius : ℚ
  deriving DecidableEq

/-- The coverage-mode flags of the `Vertex::connect` calls issued by the
nearest-point step of `expand` (lines 51-64): when the source vertex is not
done and the nearest uncovered point is farther than the collision-checking
increment, one direct-policy vertex (line 56) and one coverage-policy
vertex (line 60) are created, in that order, regardless of the configured
coverage turning radius. -/
def expandNearestCreates (sourceDone : Bool) (nearestDist incr : ℚ) : List Bool :=
  if !sourceDone && decide (incr < nearestDist) then [false, true] else []

/-- The number of coverage-flagged candidate vertices created during one
call to `expand`: those of the nearest-point step plus the
`Vertex::connect` calls of the coverage-policy bounded best-K scan. -/
def expandCoverageCreated (cfg : ExpandCfg) (sourceDone : Bool) (nearestDist : ℚ)
    (samples : List Sample) : Nat :=
  (expandNearestCreates sourceDone nearestDist cfg.collisionCheckingIncrement).count true +
    (expandScan cfg.k cfg.collisionCheckingIncrement samples initDirectScan
      (initCoverageScan cfg.coverageTurningRadius)).2.created

/-! ### The anytime planner loop `plan` (lines 153-175) -/

/-- Failures of the planner loop: the exhausted-search condition (the
`std::out_of_range` thrown by `popVertexQueue` on an empty queue), or
running out of fuel — the C++ loop is unbounded, and the fuel parameter
only makes the recursion total. -/
inductive PlanError where
  | emptyQueue
  | outOfFuel
  deriving DecidableEq

/-- The external collaborators `plan` calls into: the seeded
`StateGenerator` (given the bounding box, the speed bounds and the seed, it
yields the i-th generated state), `Vertex::makeRoot` (closing over the
planner's ribbon-manager member), the expansion step `expand` (whose
obstacle and Dubins cost evaluators are external) as its effect on the
vertex queue, and `tracePlan` producing the final plan of type `π`. -/
structure PlanEnv (π : Type) where
  genSamples : ℚ → ℚ → ℚ → ℚ → ℚ → ℚ → Nat → Nat → State
  makeRoot : State → Vertex
  expandFn : Vertex → List State → List Vertex → List Vertex
  tracePlan : Vertex → π

/-- The configuration fields `plan` itself reads. -/
structure PlanCfg where
  maxSpeed : ℚ
  timeHorizon : ℚ
  timeMinimum : ℚ
  deriving DecidableEq

/-- The search loop of `plan` (lines 169-173): starting from the root,
repeatedly test the goal condition, expand the current vertex, and pop the
next vertex from the queue; a pop from an empty queue is the
exhausted-search failure. -/
def planLoop {π : Type} (env : PlanEnv π) (cfg : PlannerCfg) (startStateTime : ℚ)
    (samples : List State) : Nat → List Vertex → Vertex → Except PlanError π
  | 0, _, _ => .error .outOfFuel
  | fuel + 1, queue, vertex =>
    if goalCondition cfg startStateTime vertex then .ok (env.tracePlan vertex)
    else
      match popVertexQueue (env.expandFn vertex samples queue) with
      | none => .error .emptyQueue
      | some p => planLoop env cfg startStateTime samples fuel p.2 p.1

/-- `SamplingBasedPlanner::plan` (lines 153-175): store the configuration
and the start state's time, clear the sample pool and the vertex queue,
generate 1000 samples with seed 7 inside the bounding box
`start ± maxSpeed * timeHorizon`, and run the pop/expand loop from the root
vertex.  The ribbon-manager argument (unnamed in the C++ signature), the
previous plan, and the `timeRemaining` budget are accepted but never
read. -/
def plan {ρ π : Type} (env : PlanEnv π) (fuel : Nat) (ribbons : ρ) (start : State)
    (config : PlanCfg) (previousPlan : π) (timeRemaining : ℚ) : Except PlanError π :=
  let startStateTime := start.time
  let magnitude := config.maxSpeed * config.timeHorizon
  let minX := start.x - magnitude
  let maxX := start.x + magnitude
  let minY := start.y - magnitude
  let maxY := start.y + magnitude
  let samples := (List.range 1000).map
    (env.genSamples minX maxX minY maxY config.maxSpeed config.maxSpeed 7)
  planLoop env ⟨config.timeHorizon, config.timeMinimum⟩ startStateTime samples fuel []
    (env.makeRoot start)

/-! ### The executive (`executive.cpp`) -/

/-- The executive state fields the modelled operations read and write:
`m_Pause`, `m_Running`, and a count of the `allDone()` notifications sent
to the trajectory collaborator. -/
structure ExecState where
  pause : Bool
  running : Bool
  allDoneCount : Nat
  deriving DecidableEq

/-- `Executive::pause` (lines 193-207): a no-op when already paused;
otherwise sets the pause flag, and when the loop flag `m_Running` is still
set, notifies the trajectory collaborator via `allDone()`. -/
def pauseOp (s : ExecState) : ExecState :=
  if s.pause then s
  else if !s.running then { s with pause := true }
  else { s with pause := true, allDoneCount := s.allDoneCount + 1 }

/-- The `try`/`catch (...)` around the planner call in
`Executive::requestPath` (lines 116-129): a successful plan passes through;
on any exception the executive logs, calls `pause()`, and rethrows. -/
def requestPathTryPlan {ε π : Type} (s : ExecState) (planResult : Except ε π) :
    ExecState × Except ε π :=
  match planResult with
  | .ok p => (s, .ok p)
  | .error e => (pauseOp s, .error e)

/-- The executive fields `updateCovered` reads and writes, together with
the ribbon manager's covered-point log (`RibbonManager::cover`, external,
modelled as the list of covered points). -/
structure CoverState where
  lastUpdateTime : ℚ
  lastHeading : ℚ
  lastState : State
  covered : List (ℚ × ℚ)
  deriving DecidableEq

/-- `Executive::updateCovered` (lines 34-43): covers `(x, y)` exactly when
`(m_LastHeading - heading) / m_LastUpdateTime <= c_CoverageHeadingRateMax`
— the divisor is the stored absolute last-update time, not the elapsed time
since it — and then unconditionally overwrites `m_LastUpdateTime`,
`m_LastHeading` and `m_LastState` with the new values. -/
def updateCovered (cMax : ℚ) (s : CoverState) (x y speed heading t : ℚ) : CoverState :=
  let s1 := if (s.lastHeading - heading) / s.lastUpdateTime ≤ cMax
            then { s with covered := (x, y) :: s.covered } else s
  { s1 with
    lastUpdateTime := t
    lastHeading := heading
    lastState := ⟨x, y, heading, speed, t⟩ }

/-! ### Concrete instances used by witnesses and counterexamples -/

/-- A configuration with `timeHorizon = 10`, `timeMinimum = 0`. -/
def c1cfg : PlannerCfg := ⟨10, 0⟩

/-- A goal vertex (time 10 reaches the horizon) with total cost 5, taken as
the incumbent. -/
def c1b : Vertex := ⟨0, 5, 10, false, none⟩

/-- A non-goal vertex with a feasible parent edge and total cost equal to
the incumbent's. -/
def c1v : Vertex := ⟨1, 5, 0, false, some ⟨false, false, 0⟩⟩

/-- A vertex whose parent edge is marked infeasible. -/
def c2v : Vertex := ⟨1, 0, 0, false, some ⟨true, false, 0⟩⟩

/-- A goal vertex at exactly the time horizon. -/
def c5v : Vertex := ⟨0, 0, 10, false, none⟩

/-- A vertex with the same done status and a strictly later time. -/
def c5w : Vertex := ⟨0, 0, 11, false, none⟩

/-! ### Claim C1 -/

/-- Claim C1 as stated: with a goal incumbent of total cost `C` fixed, no
vertex retained in the open list after any sequence of pushes and pops is
non-improving, where non-improving means total cost `≥ C`, or total cost
`= C` and itself satisfying the goal condition. -/
def c1AsStated : Prop :=
  ∀ (cfg : PlannerCfg) (t : ℚ) (b : Vertex), goalCondition cfg t b = true →
    ∀ (ops : List QueueOp) (x : Vertex), x ∈ runQueueOps cfg t (some b) [] ops →
      ¬ (b.f ≤ x.f ∨ (x.f = b.f ∧ goalCondition cfg t x = true))

/-- Claim C1, counterexample: a pushed vertex whose total cost equals the
incumbent's but which is not itself a goal passes the pruning filter and is
retained, yet it is non-improving in the claim's `≥` sense. -/
theorem claimC1_counterexample : ¬ c1AsStated := by
  intro h
  have hmem : c1v ∈ runQueueOps c1cfg 0 (some c1b) [] [QueueOp.push c1v] := by
    norm_num [runQueueOps, applyQueueOp, pushVertexQueue, Vertex.isRoot, parentInfeasible,
      bestDominates, bestEqualGoal, goalCondition, c1v, c1b, c1cfg]
  have hgoal : goalCondition c1cfg 0 c1b = true := by
    norm_num [goalCondition, c1b, c1cfg]
  exact h c1cfg 0 c1b hgoal [QueueOp.push c1v] c1v hmem
    (Or.inl (by norm_num [c1v, c1b]))

/-- Claim C1 (amended): with a goal incumbent of total cost `C` fixed, every
vertex retained in the open list after any sequence of pushes and pops from
the empty queue has total cost at most `C`, and a retained vertex of total
cost exactly `C` never satisfies the goal condition; in particular the open
list never contains a vertex whose total cost exceeds the incumbent's. -/
theorem claimC1_amended (cfg : PlannerCfg) (t : ℚ) (b : Vertex) (ops : List QueueOp)
    (_hb : goalCondition cfg t b = true) :
    ∀ x ∈ runQueueOps cfg t (some b) [] ops,
      x.f ≤ b.f ∧ (x.f = b.f → goalCondition cfg t x = false) := by
  refine runQueueOps_forall ?_ ops [] (by simp)
  intro v _ h2 h3
  have hle : v.f ≤ b.f := by
    have : ¬ b.f < v.f := by simpa [bestDominates] using h2
    exact le_of_not_lt this
  refine ⟨hle, ?_⟩
  intro heq
  by_contra hg
  have hg' : goalCondition cfg t v = true := by
    cases hgc : goalCondition cfg t v
    · exact absurd hgc hg
    · rfl
  rw [bestEqualGoal, heq.symm] at h3
  simp [hg'] at h3

/-- Witness for C1 (amended) at a concrete incumbent and push sequence. -/
theorem claimC1_amended_witness :
    c1v.f ≤ c1b.f ∧ (c1v.f = c1b.f → goalCondition c1cfg 0 c1v = false) :=
  claimC1_amended c1cfg 0 c1b [QueueOp.push c1v]
    (by norm_num [goalCondition, c1b, c1cfg])
    c1v
    (by norm_num [runQueueOps, applyQueueOp, pushVertexQueue, Vertex.isRoot, parentInfeasible,
      bestDominates, bestEqualGoal, goalCondition, c1v, c1b, c1cfg])

/-! ### Claim C2 -/

/-- Claim C2: `pushVertexQueue` is a no-op on a vertex whose parent edge is
marked infeasible, and consequently no queue reachable by pushes and pops
from the empty queue ever contains a vertex with an infeasible parent
edge. -/
theorem claimC2_push_infeasible (cfg : PlannerCfg) (t : ℚ) (best : Option Vertex) :
    (∀ (q : List Vertex) (v : Vertex) (e : Edge), v.parentEdge = some e →
      e.infeasible = true → pushVertexQueue cfg t best q v = q) ∧
    (∀ (ops : List QueueOp) (x : Vertex), x ∈ runQueueOps cfg t best [] ops →
      ∀ e : Edge, x.parentEdge = some e → e.infeasible = false) := by
  constructor
  · intro q v e hp hinf
    unfold pushVertexQueue
    rw [if_pos]
    simp [Vertex.isRoot, parentInfeasible, hp, hinf]
  · intro ops x hx e hp
    refine runQueueOps_forall (P := fun v => ∀ e : Edge, v.parentEdge = some e →
      e.infeasible = false) ?_ ops [] (by simp) x hx e hp
    intro v h1 _ _ e1 hpe
    have hroot : v.isRoot = false := by simp [Vertex.isRoot, hpe]
    rw [hroot] at h1
    have hpi : parentInfeasible v = false := by simpa using h1
    simpa [parentInfeasible, hpe] using hpi

/-- Witness for C2: a concrete infeasible-edged vertex is rejected. -/
theorem claimC2_witness : pushVertexQueue c1cfg 0 none [] c2v = [] :=
  (claimC2_push_infeasible c1cfg 0 none).1 [] c2v ⟨true, false, 0⟩ rfl rfl

/-! ### Claim C3 -/

/-- Claim C3: on a non-empty queue, `popVertexQueue` removes and returns a
vertex of maximal search depth among the queued vertices, and the ordering
comparator reads only the depth — replacing the total costs of the compared
vertices never changes its verdict. -/
theorem claimC3_pop_max_depth (q : List Vertex) (h : q ≠ []) :
    (∃ v rest, popVertexQueue q = some (v, rest) ∧ v ∈ q ∧
      (∀ x ∈ q, x.depth ≤ v.depth) ∧ List.Perm q (v :: rest)) ∧
    (∀ (v1 v2 : Vertex) (d1 d2 : ℚ),
      getVertexComparator { v1 with f := d1 } { v2 with f := d2 } =
        getVertexComparator v1 v2) := by
  constructor
  · obtain ⟨v, rest, hp⟩ := popVertexQueue_isSome h
    obtain ⟨hv, hr, hmax⟩ := popVertexQueue_max hp
    exact ⟨v, rest, hp, hv, hmax, hr ▸ List.perm_cons_erase hv⟩
  · intro v1 v2 d1 d2; rfl

/-- Witness for C3 on a concrete singleton queue. -/
theorem claimC3_witness :
    ∃ v rest, popVertexQueue [c1v] = some (v, rest) ∧ v ∈ [c1v] ∧
      (∀ x ∈ [c1v], x.depth ≤ v.depth) ∧ List.Perm [c1v] (v :: rest) :=
  (claimC3_pop_max_depth [c1v] (by simp)).1

/-! ### Claim C4 -/

/-- Claim C4: popping an empty open list fails with the out-of-range
condition (modelled as `none`) and never produces a vertex; popping a
non-empty list removes and returns one of its vertices. -/
theorem claimC4_pop_empty_error :
    popVertexQueue [] = none ∧
    ∀ (q : List Vertex), q ≠ [] → ∃ v rest, popVertexQueue q = some (v, rest) ∧
      v ∈ q ∧ rest.length + 1 = q.length := by
  refine ⟨rfl, ?_⟩
  intro q h
  obtain ⟨v, rest, hp⟩ := popVertexQueue_isSome h
  obtain ⟨hv, hr, _⟩ := popVertexQueue_max hp
  refine ⟨v, rest, hp, hv, ?_⟩
  have hlen := List.length_erase_of_mem hv
  have hpos : 0 < q.length := List.length_pos.2 h
  rw [hr, hlen]
  omega

/-- Witness for C4 at a concrete non-empty queue. -/
theorem claimC4_witness :
    popVertexQueue [] = none ∧
    ∃ v rest, popVertexQueue [c1v] = some (v, rest) ∧ v ∈ [c1v] ∧
      rest.length + 1 = [c1v].length :=
  ⟨claimC4_pop_empty_error.1, claimC4_pop_empty_error.2 [c1v] (by simp)⟩

/-! ### Claim C5 -/

/-- Claim C5: the goal condition is monotonic in time — if a vertex
satisfies it, any vertex with the same coverage-completion status and a
strictly later state time also satisfies it (same configuration and start
state time). -/
theorem claimC5_goal_monotonic (cfg : PlannerCfg) (startStateTime : ℚ) (v w : Vertex)
    (hdone : v.done = w.done) (ht : v.time < w.time)
    (hv : goalCondition cfg startStateTime v = true) :
    goalCondition cfg startStateTime w = true := by
  simp only [goalCondition, Bool.or_eq_true, Bool.and_eq_true, decide_eq_true_eq] at hv ⊢
  rcases hv with h | ⟨hd, h⟩
  · exact Or.inl (le_trans h (le_of_lt ht))
  · exact Or.inr ⟨hdone ▸ hd, le_trans h (le_of_lt ht)⟩

/-- Witness for C5 at concrete vertices at times 10 and 11. -/
theorem claimC5_witness : goalCondition c1cfg 0 c5w = true :=
  claimC5_goal_monotonic c1cfg 0 c5v c5w rfl (by norm_num [c5v, c5w])
    (by norm_num [goalCondition, c5v, c1cfg])

/-! ### Claim C6 -/

/-- Claim C6: in every call to `expand`, each of the two bounded best-K
selections ends its scan retaining at most `k` candidates; every retained
approximate cost is at most the approximate cost of any candidate discarded
for exceeding the bound in the same scan; and whenever a step evicts a
candidate, the evicted candidate is a current worst — its approximate cost
dominates the new candidate and all previously retained ones. -/
theorem claimC6_bounded_selection (k : Nat) (incr coverageTurningRadius : ℚ)
    (samples : List Sample) :
    ((expandScan k incr samples initDirectScan
        (initCoverageScan coverageTurningRadius)).1.cands.length ≤ k ∧
      ∀ x ∈ (expandScan k incr samples initDirectScan
          (initCoverageScan coverageTurningRadius)).1.cands,
        ∀ w ∈ (expandScan k incr samples initDirectScan
          (initCoverageScan coverageTurningRadius)).1.evicted, x ≤ w) ∧
    ((expandScan k incr samples initDirectScan
        (initCoverageScan coverageTurningRadius)).2.cands.length ≤ k ∧
      ∀ x ∈ (expandScan k incr samples initDirectScan
          (initCoverageScan coverageTurningRadius)).2.cands,
        ∀ w ∈ (expandScan k incr samples initDirectScan
          (initCoverageScan coverageTurningRadius)).2.evicted, x ≤ w) ∧
    (∀ (st : ScanState) (euclid approx : ℚ),
      (scanStep k incr st euclid approx).evicted ≠ st.evicted →
        (scanStep k incr st euclid approx).evicted =
            listMax1 approx st.cands :: st.evicted ∧
          ∀ y ∈ approx :: st.cands, y ≤ listMax1 approx st.cands) := by
  have hinit : ScanInv k initDirectScan := by
    refine ⟨by simp [initDirectScan], by simp [initDirectScan], ?_⟩
    intro x hx
    simp [initDirectScan] at hx
  have hinitc : ScanInv k (initCoverageScan coverageTurningRadius) := by
    refine ⟨by simp [initCoverageScan], by simp [initCoverageScan], ?_⟩
    intro x hx
    simp [initCoverageScan] at hx
  obtain ⟨⟨h1, _, h2⟩, ⟨h3, _, h4⟩⟩ :=
    expandScan_inv samples initDirectScan (initCoverageScan coverageTurningRadius) hinit hinitc
  refine ⟨⟨h1, h2⟩, ⟨h3, h4⟩, ?_⟩
  intro st euclid approx hne
  unfold scanStep at hne ⊢
  split at hne
  · exact absurd rfl hne
  split at hne
  case isFalse => exact absurd rfl hne
  split at hne
  case isFalse => exact absurd rfl hne
  split at hne
  · rename_i hdone hcond hfar hk
    rw [if_neg hdone, if_pos hcond, if_pos hfar, if_pos hk]
    exact ⟨rfl, le_listMax1 approx st.cands⟩
  · exact absurd rfl hne

/-- Witness for C6's eviction conjunct at a concrete full candidate set. -/
theorem claimC6_witness :
    (scanStep 1 0 ⟨[3], false, [], 1⟩ 2 5).evicted = listMax1 5 [3] :: [] ∧
      ∀ y ∈ (5 : ℚ) :: [3], y ≤ listMax1 5 [3] :=
  (claimC6_bounded_selection 1 0 1 []).2.2 ⟨[3], false, [], 1⟩ 2 5
    (by norm_num [scanStep, scanCond, listMax1, removeFirst, max_def])

/-! ### Claim C7 -/

/-- Claim C7 as stated: with `coverageTurningRadius = 0`, no
coverage-flagged candidate vertex is ever created during any call to
`expand`. -/
def c7AsStated : Prop :=
  ∀ (cfg : ExpandCfg) (sourceDone : Bool) (nearestDist : ℚ) (samples : List Sample),
    cfg.coverageTurningRadius = 0 →
    expandCoverageCreated cfg sourceDone nearestDist samples = 0

/-- Claim C7, counterexample: with `coverageTurningRadius = 0`, a source
vertex that is not done and whose nearest uncovered point lies farther than
the collision-checking increment still triggers the unconditional
coverage-policy `Vertex::connect` of line 60, so one coverage-flagged
vertex is created. -/
theorem claimC7_counterexample : ¬ c7AsStated := by
  intro h
  have := h ⟨2, 1, 0⟩ false 10 [] rfl
  norm_num [expandCoverageCreated, expandNearestCreates, expandScan,
    initDirectScan, initCoverageScan, List.count_cons] at this

/-- Claim C7 (amended): with a non-positive `coverageTurningRadius`, the
coverage-policy bounded best-K scan creates no candidate vertices, so the
only coverage-flagged vertices created during `expand` are those of the
nearest-point step (one exactly when the source vertex is not done and its
nearest uncovered point is farther than the collision-checking
increment). -/
theorem claimC7_amended (cfg : ExpandCfg) (sourceDone : Bool) (nearestDist : ℚ)
    (samples : List Sample) (hcov : cfg.coverageTurningRadius ≤ 0) :
    (expandScan cfg.k cfg.collisionCheckingIncrement samples initDirectScan
      (initCoverageScan cfg.coverageTurningRadius)).2.created = 0 ∧
    expandCoverageCreated cfg sourceDone nearestDist samples =
      (expandNearestCreates sourceDone nearestDist
        cfg.collisionCheckingIncrement).count true := by
  have hdone : (initCoverageScan cfg.coverageTurningRadius).done = true := by
    simp [initCoverageScan, hcov]
  have h0 := expandScan_coverage_done cfg.k cfg.collisionCheckingIncrement
    samples initDirectScan (initCoverageScan cfg.coverageTurningRadius) hdone
  constructor
  · rw [h0]
    rfl
  · unfold expandCoverageCreated
    rw [h0]
    rfl

/-- Witness for C7 (amended) at a concrete call with zero coverage turning
radius. -/
theorem claimC7_amended_witness :
    (expandScan 2 1 [] initDirectScan (initCoverageScan 0)).2.created = 0 ∧
    expandCoverageCreated ⟨2, 1, 0⟩ false 10 [] =
      (expandNearestCreates false 10 1).count true :=
  claimC7_amended ⟨2, 1, 0⟩ false 10 [] (by norm_num)

/-! ### Claim C8 -/

/-- Claim C8: if the planner call in the re-planning loop throws, the loop
calls `pause()` and rethrows the exception; after the call the executive is
paused, and `pause()` notified the trajectory collaborator via `allDone()`
exactly when the loop was alive (`m_Running`) and not already paused — a
planner failure is announced as completion. -/
theorem claimC8_exception_pauses {ε π : Type} (s : ExecState) (e : ε) :
    (requestPathTryPlan (π := π) s (.error e)).2 = .error e ∧
    (requestPathTryPlan (π := π) s (.error e)).1.pause = true ∧
    (s.running = true → s.pause = false →
      (requestPathTryPlan (π := π) s (.error e)).1.allDoneCount = s.allDoneCount + 1) ∧
    (s.running = false ∨ s.pause = true →
      (requestPathTryPlan (π := π) s (.error e)).1.allDoneCount = s.allDoneCount) := by
  obtain ⟨p, r, n⟩ := s
  cases p <;> cases r <;> simp [requestPathTryPlan, pauseOp]

/-- Witness for C8 at a concrete running, unpaused executive. -/
theorem claimC8_witness :
    (requestPathTryPlan (π := Unit) (⟨false, true, 0⟩ : ExecState)
        (Except.error ())).2 = Except.error () ∧
    (requestPathTryPlan (π := Unit) (⟨false, true, 0⟩ : ExecState)
        (Except.error ())).1.pause = true ∧
    (requestPathTryPlan (π := Unit) (⟨false, true, 0⟩ : ExecState)
        (Except.error ())).1.allDoneCount = 1 :=
  ⟨(claimC8_exception_pauses ⟨false, true, 0⟩ ()).1,
   (claimC8_exception_pauses ⟨false, true, 0⟩ ()).2.1,
   (claimC8_exception_pauses ⟨false, true, 0⟩ ()).2.2.1 rfl rfl⟩

/-! ### Claim C9 -/

/-- Claim C9: two calls to `plan` that differ only in the `timeRemaining`
budget argument return identical results, for every environment, fuel,
ribbon-manager state, start state, configuration and previous plan: the
budget is dead input — stored nowhere and read by no step of the search. -/
theorem claimC9_timeRemaining_unused {ρ π : Type} (env : PlanEnv π) (fuel : Nat)
    (ribbons : ρ) (start : State) (config : PlanCfg) (previousPlan : π)
    (t1 t2 : ℚ) :
    plan env fuel ribbons start config previousPlan t1 =
      plan env fuel ribbons start config previousPlan t2 := rfl

/-! ### Claim C10 -/

/-- Claim C10: `updateCovered` marks `(x, y)` covered exactly when
`(lastHeading - heading) / lastUpdateTime` is at most the coverage
heading-rate limit — dividing by the stored absolute update time, not the
elapsed time — and in either case overwrites the stored last update time,
heading and state with the new values.  The stored time is assumed nonzero
so that rational division matches the C++ double division. -/
theorem claimC10_updateCovered (cMax : ℚ) (s : CoverState) (x y speed heading t : ℚ)
    (hlt : s.lastUpdateTime ≠ 0) :
    ((updateCovered cMax s x y speed heading t).covered = (x, y) :: s.covered ↔
      (s.lastHeading - heading) / s.lastUpdateTime ≤ cMax) ∧
    ((updateCovered cMax s x y speed heading t).covered = s.covered ↔
      ¬ (s.lastHeading - heading) / s.lastUpdateTime ≤ cMax) ∧
    (updateCovered cMax s x y speed heading t).lastUpdateTime = t ∧
    (updateCovered cMax s x y speed heading t).lastHeading = heading ∧
    (updateCovered cMax s x y speed heading t).lastState = ⟨x, y, heading, speed, t⟩ := by
  unfold updateCovered
  by_cases h : (s.lastHeading - heading) / s.lastUpdateTime ≤ cMax
  · rw [if_pos h]
    refine ⟨⟨fun _ => h, fun _ => rfl⟩, ⟨fun hc => ?_, fun hc => absurd h hc⟩, rfl, rfl, rfl⟩
    exact absurd (congrArg List.length hc) (by simp)
  · rw [if_neg h]
    refine ⟨⟨fun hc => ?_, fun hc => absurd hc h⟩, ⟨fun _ => h, fun _ => rfl⟩, rfl, rfl, rfl⟩
    exact absurd (congrArg List.length hc).symm (by simp)

/-- A concrete pre-state for `updateCovered`: stored time 2, heading 3. -/
def c10s : CoverState := ⟨2, 3, ⟨0, 0, 0, 0, 0⟩, []⟩

/-- Witness for C10 at a concrete update that covers the point. -/
theorem claimC10_witness :
    ((updateCovered 1 c10s 4 5 6 1 7).covered = (4, 5) :: c10s.covered ↔
      (c10s.lastHeading - 1) / c10s.lastUpdateTime ≤ 1) ∧
    ((updateCovered 1 c10s 4 5 6 1 7).covered = c10s.covered ↔
      ¬ (c10s.lastHeading - 1) / c10s.lastUpdateTime ≤ 1) ∧
    (updateCovered 1 c10s 4 5 6 1 7).lastUpdateTime = 7 ∧
    (updateCovered 1 c10s 4 5 6 1 7).lastHeading = 1 ∧
    (updateCovered 1 c10s 4 5 6 1 7).lastState = ⟨4, 5, 1, 6, 7⟩ :=
  claimC10_updateCovered 1 c10s 4 5 6 1 7 (by norm_num [c10s])

end PathPlanner
